import Mathlib

/-!
Verification of the headless test-evaluation orchestrator of the
runno-shadcn-vite playground: a shallow embedding in Lean 4 of the data
model (test cases, execution results, progress records), the result
classifier, the two-phase language strategy (both the two-argument
`getHeadlessExecutor` of `lib/language-support` and the three-argument
run-element variant), the headless sequencers `checkCode` / `checkCppCode`
(both module variants), the submit flow (`runTests`) and the progress
upsert (`updateProblemProgress` of the zustand store), together with
theorems settling the specification's claims about them.

Gateway calls into the external `@runno/runtime` engine are modelled as an
oracle function from (runtime identifier, source text, optional stdin) to
either an `ExecutionResult` or a thrown error; the orchestrators are
written as trace producers so that call counts, carried stdin and the
order of observable status transitions can be stated.
-/

inductive TestStatus where
  | idle
  | checking
  | pass
  | fail
deriving DecidableEq

/-- The `TestFeedback` record of `stores/runno-store.ts`: `message` plus
optional `error`, `expected`, `received`. -/
structure TestFeedback where
  message : String
  error : Option String := none
  expected : Option String := none
  received : Option String := none
deriving DecidableEq

/-- The discriminated `ExecutionResult` of the external engine, as the
orchestrator pattern-matches on it: `complete` (exit code, stdout, stderr,
combined tty transcript), `crash` (error description), `terminated`. -/
inductive ExecutionResult where
  | complete (exitCode : Int) (stdout : String) (stderr : String) (tty : String)
  | crash (error : String)
  | terminated
deriving DecidableEq

/-- The `TestCaseState` record of `stores/runno-store.ts`. -/
structure TestCaseState where
  id : String
  description : String
  stdin : Option String
  expectedOutput : Option String
  status : TestStatus
  feedback : Option TestFeedback
  result : Option ExecutionResult
deriving DecidableEq

attribute [ext] TestCaseState

/-- One invocation of `headlessRunCode` as observed at the engine boundary:
the runtime identifier, the full source text (with any reserved compile or
run marker line prefixed) and the stdin argument, `none` when the
JavaScript call omitted the stdin parameter. -/
structure GatewayCall where
  runtime : String
  source : String
  stdin : Option String
deriving DecidableEq

/-- An observable step of a submission: a gateway invocation, a
`setTestStatus(id, status, feedback)` store update (a missing feedback
argument is `none`, which overwrites any prior feedback, as the spread in
the store does), or a `setResults(id, result)` store update. -/
inductive Event where
  | gateway (call : GatewayCall)
  | setStatus (id : String) (status : TestStatus) (feedback : Option TestFeedback)
  | setResult (id : String) (result : ExecutionResult)
deriving DecidableEq

/-- The external execution engine as an oracle: `engine runtime source stdin?`
is either `.ok` with the engine's `ExecutionResult` or `.error` when the
call throws/rejects outside its result protocol. -/
abbrev Engine := String → String → Option String → Except String ExecutionResult

/-- The `LanguageKey` union of `lib/language-support.ts`. -/
inductive LanguageKey where
  | python
  | quickjs
  | clangpp
deriving DecidableEq

/-- One entry of the `supportedLanguages` configuration object. -/
structure LanguageSpec where
  name : String
  extension : String
  runtime : String
  needsCompilation : Bool
  defaultCode : String
deriving DecidableEq

/-- The `supportedLanguages` object of `lib/language-support.ts`. -/
def supportedLanguages : LanguageKey → LanguageSpec
  | .python =>
    { name := "Python", extension := ".py", runtime := "python",
      needsCompilation := false, defaultCode := "print(\x22Hello, world!\x22)" }
  | .quickjs =>
    { name := "JavaScript", extension := ".js", runtime := "quickjs",
      needsCompilation := false, defaultCode := "console.log(\x22Hello, world!\x22)" }
  | .clangpp =>
    { name := "C++", extension := ".cpp", runtime := "clangpp",
      needsCompilation := true,
      defaultCode := "#include <iostream>\n\nint main() \x7b\n  std::cout << \x22Hello, world!\x22 << std::endl;\n  return 0;\n\x7d" }

/-- The string a `LanguageKey` passes as the first argument of
`headlessRunCode` (the key itself). -/
def langStr : LanguageKey → String
  | .python => "python"
  | .quickjs => "quickjs"
  | .clangpp => "clangpp"

/-- JavaScript `testCase.stdin ? testCase.stdin + '\n' : ''`: the stdin the
sequencer computes for a test case (`undefined` and the empty string are
falsy). -/
def jsStdin : Option String → String
  | none => ""
  | some s => if s = "" then "" else s ++ "\n"

/-- JavaScript falsiness of an optional string (`!testCase.expectedOutput`):
true for `undefined` and for the empty string. -/
def jsFalsy : Option String → Bool
  | none => true
  | some s => s = ""

/-- JavaScript `compileResult.exitCode` on a raw result: the property exists
only on the `complete` variant (`undefined`, modelled `none`, otherwise). -/
def exitCodeJS : ExecutionResult → Option Int
  | .complete exitCode _ _ _ => some exitCode
  | _ => none

/-- `result.resultType === "complete" && result.exitCode !== 0`. -/
def isCompleteNonzero : ExecutionResult → Bool
  | .complete exitCode _ _ _ => exitCode ≠ 0
  | _ => false

/-- `result.resultType === 'complete' && result.stdout === 'None'`: the guard
of the Python \x22None\x22 retry in `getHeadlessExecutor`. -/
def isCompleteStdoutNone : ExecutionResult → Bool
  | .complete _ stdout _ _ => stdout = "None"
  | _ => false

/-- Whitespace as JavaScript's `trim()` strips it (the characters that occur
in this system's strings). -/
def isWsChar (c : Char) : Bool :=
  c = ' ' || c = '\t' || c = '\n' || c = '\r'

/-- Leading-whitespace removal on the character list. -/
def dropLeadingWs : List Char → List Char
  | [] => []
  | c :: cs => if isWsChar c then dropLeadingWs cs else c :: cs

/-- JavaScript `s.trim()`: strip leading and trailing whitespace. -/
def jsTrim (s : String) : String :=
  ⟨(dropLeadingWs (dropLeadingWs s.data.reverse).reverse)⟩

/-- Containment of `pat` at the head of `l`. -/
def listStartsWith (pat l : List Char) : Bool :=
  pat.isPrefixOf l

/-- JavaScript `s.includes(pat)` for the non-empty patterns the source uses:
substring containment. -/
def strIncludes (s pat : String) : Bool :=
  go pat.data s.data
where
  /-- Does `pat` occur as a contiguous segment of `l`? -/
  go (pat : List Char) : List Char → Bool
    | [] => listStartsWith pat []
    | c :: rest => listStartsWith pat (c :: rest) || go pat rest

/-- The Python capture wrapper template literal of `getHeadlessExecutor`
(`lib/language-support.ts`), with the user code spliced in. -/
def wrappedCode (code : String) : String :=
  "\nimport sys\nfrom io import StringIO\n\n# Capture stdout\nold_stdout = sys.stdout\nsys.stdout = mystdout = StringIO()\n\n# Run the user code\n"
    ++ code
    ++ "\n\n# Restore stdout and get the captured output\nsys.stdout = old_stdout\nprint(mystdout.getvalue())\n"

/-- The shared per-test-case classification block of `checkCode` /
`checkCppCode` (identical text in every module variant): from the raw
result and the test case's `expectedOutput`, the `setTestStatus` status and
feedback. Order of the source's checks: crash, terminated, complete with
non-zero exit, falsy expectedOutput, trimmed comparison. -/
def processResult (expectedOutput : Option String) : ExecutionResult → TestStatus × Option TestFeedback
  | .crash _ =>
    (.fail, some { message := "There was a system error running your program." })
  | .terminated =>
    (.fail, some { message := "Your program was terminated early." })
  | .complete exitCode stdout _ tty =>
    if exitCode ≠ 0 then
      (.fail, some { message := "Your program had an error.", error := some tty })
    else
      match expectedOutput with
      | none => (.pass, none)
      | some expected =>
        if expected = "" then (.pass, none)
        else if jsTrim stdout = jsTrim expected then (.pass, none)
        else
          (.fail, some { message := "Your output didn\x27t match what we expected.",
                         expected := some expected, received := some stdout })

/-- The two-argument executor returned by `getHeadlessExecutor` in
`lib/language-support.ts` (`async (code, stdin) => ...`, the variant the
live `checkCode` imports): value and the list of gateway calls issued.
Faithful to the source, none of its `headlessRunCode` calls passes a stdin
argument — the `stdin` parameter is declared but never used — and the
Python \x22None\x22 retry reruns the wrapped code. -/
def executorV1 (engine : Engine) (language : LanguageKey) (code stdin : String) :
    Except String ExecutionResult × List GatewayCall :=
  if (supportedLanguages language).needsCompilation then
    let compileCall : GatewayCall := ⟨langStr language, "//-compile\n" ++ code, none⟩
    match engine (langStr language) ("//-compile\n" ++ code) none with
    | .error e => (.error e, [compileCall])
    | .ok compileResult =>
      if isCompleteNonzero compileResult then
        (.ok compileResult, [compileCall])
      else
        let runCall : GatewayCall := ⟨langStr language, "//-run\n" ++ code, none⟩
        match engine (langStr language) ("//-run\n" ++ code) none with
        | .error e => (.error e, [compileCall, runCall])
        | .ok runResult => (.ok runResult, [compileCall, runCall])
  else
    let call : GatewayCall := ⟨langStr language, code, none⟩
    match engine (langStr language) code none with
    | .error e => (.error e, [call])
    | .ok result =>
      if language = .python && isCompleteStdoutNone result && strIncludes code "print(" then
        let retryCall : GatewayCall := ⟨langStr language, wrappedCode code, none⟩
        match engine (langStr language) (wrappedCode code) none with
        | .error e => (.error e, [call, retryCall])
        | .ok retried => (.ok retried, [call, retryCall])
      else
        (.ok result, [call])

/-- The three-argument executor of the run-element variant of
`getHeadlessExecutor` (`async (runElement, code, stdin) => ...`): the
compile call carries an explicit empty stdin, the short-circuit guard is
the untyped `compileResult.exitCode !== 0`, and the run call carries the
real stdin. -/
def executorV2 (engine : Engine) (language : LanguageKey) (code stdin : String) :
    Except String ExecutionResult × List GatewayCall :=
  if (supportedLanguages language).needsCompilation then
    let compileCall : GatewayCall := ⟨langStr language, "//-compile\n" ++ code, some ""⟩
    match engine (langStr language) ("//-compile\n" ++ code) (some "") with
    | .error e => (.error e, [compileCall])
    | .ok compileResult =>
      if exitCodeJS compileResult ≠ some 0 then
        (.ok compileResult, [compileCall])
      else
        let runCall : GatewayCall := ⟨langStr language, "//-run\n" ++ code, some stdin⟩
        match engine (langStr language) ("//-run\n" ++ code) (some stdin) with
        | .error e => (.error e, [compileCall, runCall])
        | .ok runResult => (.ok runResult, [compileCall, runCall])
  else
    let call : GatewayCall := ⟨langStr language, code, some stdin⟩
    match engine (langStr language) code (some stdin) with
    | .error e => (.error e, [call])
    | .ok result => (.ok result, [call])

/-- The `TestCaseTemplate` record of `stores/runno-store.ts`. -/
structure TestCaseTemplate where
  description : String
  stdin : Option String
  expectedOutput : Option String
deriving DecidableEq

/-- The difficulty union of `ProblemState`. -/
inductive Difficulty where
  | easy
  | medium
  | hard
deriving DecidableEq

/-- The `ProblemState` record of `stores/runno-store.ts` (`starterCode` is the
per-language record). -/
structure ProblemState where
  id : String
  title : String
  difficulty : Difficulty
  description : String
  starterCode : LanguageKey → String
  testCases : Option (List TestCaseTemplate)

/-- `PrepareFn` stands for the per-problem code-rewriting block of the live
`checkCode` (the regex substitutions keyed on the current problem's id and
the test case's description, lines 229-304 of `lib/runno-headless.ts`'s
second variant): a pure function of the current problem, the active
language, the submitted code and the test case's description. No claim
depends on the rewritten text, so the orchestrator is parameterized over
it; every theorem below quantifies over an arbitrary such function. -/
abbrev PrepareFn := Option ProblemState → LanguageKey → String → String → String

/-- The per-test-case work of the live `checkCode`: rewrite the code for the
test case and run it through the two-argument executor with the
sequencer-computed stdin. -/
def mkCase (engine : Engine) (lang : LanguageKey) (prob : Option ProblemState)
    (prepare : PrepareFn) (code : String) (tc : TestCaseState) :
    Except String ExecutionResult × List GatewayCall :=
  executorV1 engine lang (prepare prob lang code tc.description) (jsStdin tc.stdin)

/-- The `for (const testCase of testCases)` loop of the live `checkCode`:
per case, `setTestStatus(id, 'checking')`, the executor's gateway calls,
`setResults`, and the classification's `setTestStatus`. The boolean is
true when an executor call threw, aborting the loop (control passes to the
`catch`). -/
def checkCodeV2Aux (exec : TestCaseState → Except String ExecutionResult × List GatewayCall) :
    List TestCaseState → List Event × Bool
  | [] => ([], false)
  | tc :: rest =>
    let (r, calls) := exec tc
    match r with
    | .error _ => (.setStatus tc.id .checking none :: calls.map .gateway, true)
    | .ok result =>
      let (status, feedback) := processResult tc.expectedOutput result
      let (evs, caught) := checkCodeV2Aux exec rest
      ((.setStatus tc.id .checking none :: calls.map .gateway
          ++ [.setResult tc.id result, .setStatus tc.id status feedback]) ++ evs, caught)

/-- The loop of the live `checkCode` applied to its executor. -/
def checkCodeV2Run (engine : Engine) (lang : LanguageKey) (prob : Option ProblemState)
    (prepare : PrepareFn) (code : String) (testCases : List TestCaseState) :
    List Event × Bool :=
  checkCodeV2Aux (mkCase engine lang prob prepare code) testCases

/-- The feedback of the live `checkCode`'s catch-all error handler. -/
def unexpectedErrorFeedback : TestFeedback :=
  { message := "An unexpected error occurred while checking your code." }

/-- The live `checkCode` of `lib/runno-headless.ts` (the variant importing
`getHeadlessExecutor`): the event trace of one submission over the store's
test-case snapshot. On a thrown gateway error the `catch` block marks
every test case failed with a generic message; the function never
re-throws. -/
def checkCodeV2 (engine : Engine) (lang : LanguageKey) (prob : Option ProblemState)
    (prepare : PrepareFn) (code : String) (testCases : List TestCaseState) : List Event :=
  let (evs, caught) := checkCodeV2Run engine lang prob prepare code testCases
  if caught then
    evs ++ testCases.map (fun tc => .setStatus tc.id .fail (some unexpectedErrorFeedback))
  else evs

/-- The first-variant `checkCode` of `lib/runno-headless.ts` (run-element
based, runtime hardcoded to "python", stdin passed): its loop. The
`Option String` is a thrown gateway error, which this variant does not
catch (its `try` has only a `finally` for DOM cleanup), so the error
propagates to the caller with the events observed so far. -/
def checkCodeV1Aux (engine : Engine) (code : String) :
    List TestCaseState → List Event × Option String
  | [] => ([], none)
  | tc :: rest =>
    let call : GatewayCall := ⟨"python", code, some (jsStdin tc.stdin)⟩
    match engine "python" code (some (jsStdin tc.stdin)) with
    | .error e => ([.setStatus tc.id .checking none, .gateway call], some e)
    | .ok result =>
      let (status, feedback) := processResult tc.expectedOutput result
      let (evs, err) := checkCodeV1Aux engine code rest
      ([.setStatus tc.id .checking none, .gateway call,
        .setResult tc.id result, .setStatus tc.id status feedback] ++ evs, err)

/-- The first-variant `checkCode` (see `checkCodeV1Aux`). -/
def checkCodeV1 (engine : Engine) (code : String) (testCases : List TestCaseState) :
    List Event × Option String :=
  checkCodeV1Aux engine code testCases

/-- The compile-failure feedback `checkCppCode` writes to every test case:
message "Compilation failed.", error from the source's ternary
(`stderr || tty` on a complete result, a fixed string otherwise). -/
def compileFailFeedback : ExecutionResult → TestFeedback
  | .complete _ _ stderr tty =>
    { message := "Compilation failed.", error := some (if stderr = "" then tty else stderr) }
  | _ => { message := "Compilation failed.", error := some "Compilation process failed" }

/-- The run loop of the first-variant `checkCppCode`: per case checking
status, the run-marker gateway call carrying the sequencer stdin,
`setResults` and classification; a thrown error propagates (no catch). -/
def checkCppCodeV1Loop (engine : Engine) (code : String) :
    List TestCaseState → List Event × Option String
  | [] => ([], none)
  | tc :: rest =>
    let runCall : GatewayCall := ⟨"clangpp", "//-run\n" ++ code, some (jsStdin tc.stdin)⟩
    match engine "clangpp" ("//-run\n" ++ code) (some (jsStdin tc.stdin)) with
    | .error e => ([.setStatus tc.id .checking none, .gateway runCall], some e)
    | .ok result =>
      let (status, feedback) := processResult tc.expectedOutput result
      let (evs, err) := checkCppCodeV1Loop engine code rest
      ([.setStatus tc.id .checking none, .gateway runCall,
        .setResult tc.id result, .setStatus tc.id status feedback] ++ evs, err)

/-- The first-variant `checkCppCode` of `lib/runno-headless.ts`: one
compile-marker call with explicit empty stdin; if it completes with a
non-zero exit code, every test case is failed with the shared
compile-failure feedback and the run loop never executes; otherwise the
run loop runs each case. -/
def checkCppCodeV1 (engine : Engine) (code : String) (testCases : List TestCaseState) :
    List Event × Option String :=
  let compileCall : GatewayCall := ⟨"clangpp", "//-compile\n" ++ code, some ""⟩
  match engine "clangpp" ("//-compile\n" ++ code) (some "") with
  | .error e => ([.gateway compileCall], some e)
  | .ok compileResult =>
    if isCompleteNonzero compileResult then
      (.gateway compileCall ::
        testCases.map (fun tc => .setStatus tc.id .fail (some (compileFailFeedback compileResult))),
       none)
    else
      let (evs, err) := checkCppCodeV1Loop engine code testCases
      (.gateway compileCall :: evs, err)

/-- Effect of one observable event on one test case of the store: the
zustand `setTestStatus` / `setResults` actions map over the array and
update the entry whose id matches; a gateway call does not touch the
store. -/
def applyEventElem (tc : TestCaseState) : Event → TestCaseState
  | .gateway _ => tc
  | .setStatus i status feedback =>
    if tc.id = i then { tc with status := status, feedback := feedback } else tc
  | .setResult i result =>
    if tc.id = i then { tc with result := some result } else tc

/-- Effect of one event on the whole store list. -/
def applyStep (s : List TestCaseState) (e : Event) : List TestCaseState :=
  s.map (fun tc => applyEventElem tc e)

/-- Folding a trace of events over the store's test-case list: the store
state after those observable steps. -/
def applyEvents (s : List TestCaseState) (trace : List Event) : List TestCaseState :=
  trace.foldl applyStep s

/-- The `runTests` handler of the submit button (the right-pane page
component): before delegating to `checkCode`, it sets every test case of
the snapshot to `checking` in one pass (`testCases.forEach(...
setTestStatus(id, 'checking'))`). The initialization branch that seeds a
fallback test case for an empty list, and the deferred aggregation, are
modelled separately (`aggregateSolved`, `updateProblemProgress`). -/
def runTestsTrace (engine : Engine) (lang : LanguageKey) (prob : Option ProblemState)
    (prepare : PrepareFn) (code : String) (testCases : List TestCaseState) : List Event :=
  testCases.map (fun tc => .setStatus tc.id .checking none)
    ++ checkCodeV2 engine lang prob prepare code testCases

/-- The aggregation of `runTests`:
`currentTestCases.every(tc => tc.status === 'pass')` (JavaScript `every`
is vacuously true on an empty array). -/
def aggregateSolved (testCases : List TestCaseState) : Bool :=
  testCases.all (fun tc => tc.status == .pass)

/-- The per-language sub-record of a `UserProblemProgress` entry. -/
structure LangProgress where
  code : String
  passed : Bool
  lastAttempted : String
deriving DecidableEq

/-- The `UserProblemProgress` record of `stores/runno-store.ts`:
`languages` is the per-language partial record. -/
structure UserProblemProgress where
  problemId : String
  solved : Bool
  lastAttempted : String
  languages : LanguageKey → Option LangProgress

/-- The slice of the zustand store state that `updateProblemProgress`
reads and writes. -/
structure RunnoState where
  code : String
  activeLanguage : LanguageKey
  testCases : List TestCaseState
  currentProblem : Option ProblemState
  userProgress : List UserProblemProgress

/-- JavaScript `Array.prototype.findIndex`: index of the first element
satisfying the predicate. -/
def jsFindIndex (p : α → Bool) : List α → Option Nat
  | [] => none
  | a :: rest => if p a then some 0 else (jsFindIndex p rest).map (· + 1)

/-- The `updateProblemProgress(passed)` action of `stores/runno-store.ts`.
`now` injects `new Date().toISOString()`. With no current problem the
state is unchanged; otherwise the first progress entry whose `problemId`
matches is replaced by a copy with `solved := solved || passed`, a new
timestamp and the active language's sub-record overwritten (the other
languages' sub-records spread through); with no match a fresh entry is
pushed at the end. -/
def updateProblemProgress (now : String) (passed : Bool) (s : RunnoState) : RunnoState :=
  match s.currentProblem with
  | none => s
  | some currentProblem =>
    let problemId := currentProblem.id
    match jsFindIndex (fun p => p.problemId == problemId) s.userProgress with
    | some i =>
      match s.userProgress[i]? with
      | some oldProgress =>
        let updated : UserProblemProgress :=
          { oldProgress with
            solved := oldProgress.solved || passed,
            lastAttempted := now,
            languages := fun l =>
              if l = s.activeLanguage then some ⟨s.code, passed, now⟩
              else oldProgress.languages l }
        { s with userProgress := s.userProgress.set i updated }
      | none => s
    | none =>
      { s with
        userProgress := s.userProgress ++
          [{ problemId := problemId, solved := passed, lastAttempted := now,
             languages := fun l =>
               if l = s.activeLanguage then some ⟨s.code, passed, now⟩ else none }] }

/-- Does a gateway call's source text start with the reserved run-marker
line? (The observation the short-circuit claims count.) -/
def isRunModeSource (source : String) : Bool :=
  listStartsWith "//-run\n".data source.data

/-- Number of run-marker gateway calls in a trace. -/
def runModeCallCount (trace : List Event) : Nat :=
  trace.countP (fun e => match e with | .gateway c => isRunModeSource c.source | _ => false)

/-- Number of test cases currently in `checking` state. -/
def countChecking (s : List TestCaseState) : Nat :=
  s.countP (fun tc => tc.status == .checking)

/-- Last `setTestStatus` payload for a given id in a trace, threaded through
an accumulator (the value observed before the trace). -/
def lastStatusAux (i : String) (a : Option (TestStatus × Option TestFeedback)) :
    List Event → Option (TestStatus × Option TestFeedback)
  | [] => a
  | .setStatus j status feedback :: tr =>
    lastStatusAux i (if j = i then some (status, feedback) else a) tr
  | .gateway _ :: tr => lastStatusAux i a tr
  | .setResult _ _ :: tr => lastStatusAux i a tr

/-- Last `setTestStatus` payload for a given id in a trace. -/
def lastStatus (i : String) (tr : List Event) : Option (TestStatus × Option TestFeedback) :=
  lastStatusAux i none tr

/-- Last `setResults` payload for a given id in a trace, with accumulator. -/
def lastResultAux (i : String) (a : Option ExecutionResult) :
    List Event → Option ExecutionResult
  | [] => a
  | .setResult j result :: tr => lastResultAux i (if j = i then some result else a) tr
  | .gateway _ :: tr => lastResultAux i a tr
  | .setStatus _ _ _ :: tr => lastResultAux i a tr

/-- Last `setResults` payload for a given id in a trace. -/
def lastResult (i : String) (tr : List Event) : Option ExecutionResult :=
  lastResultAux i none tr

/-- The fields of a test case the orchestrator reads but never writes. -/
def immutProj (tc : TestCaseState) : String × String × Option String × Option String :=
  (tc.id, tc.description, tc.stdin, tc.expectedOutput)

/-- An engine whose every call completes cleanly: used to exhibit the calls
a successful compiled-language execution issues. -/
def cleanEngine : Engine := fun _ _ _ => .ok (.complete 0 "4" "" "4")

/-- An engine whose every call completes with exit code 2: a compile failure
however it is invoked. -/
def compileFailEngine : Engine := fun _ _ _ => .ok (.complete 2 "" "err" "ttyout")

/-- A concrete idle test case for witnesses. -/
def tcW : TestCaseState :=
  { id := "w1", description := "desc", stdin := some "3", expectedOutput := some "6",
    status := .idle, feedback := none, result := none }

/-- An engine whose every call throws (rejects outside the result
protocol). -/
def throwEngine : Engine := fun _ _ _ => .error "boom"

/-- A prepare function for witnesses: no rewriting (the identity on the
submitted code). -/
def prep0 : PrepareFn := fun _ _ code _ => code

/-- A concrete problem for progress witnesses. -/
def probW : ProblemState :=
  { id := "two-sum", title := "Two Sum", difficulty := .easy, description := "d",
    starterCode := fun _ => "", testCases := none }

/-- A concrete existing progress record: solved, with a JavaScript
sub-record. -/
def progW : UserProblemProgress :=
  { problemId := "two-sum", solved := true, lastAttempted := "t0",
    languages := fun l => if l = .quickjs then some ⟨"old", true, "t0"⟩ else none }

/-- A concrete store state for progress witnesses: active language Python,
one existing progress entry. -/
def stateW : RunnoState :=
  { code := "newcode", activeLanguage := .python, testCases := [],
    currentProblem := some probW, userProgress := [progW] }

/-- Every prefix of the trace keeps at most one test case in `checking`:
the statement is threaded step by step so that it composes over
concatenation. -/
def prefixBounded (s : List TestCaseState) : List Event → Prop
  | [] => True
  | e :: tr => countChecking (applyStep s e) ≤ 1 ∧ prefixBounded (applyStep s e) tr

/-- Every test case currently in `checking` has the given id. -/
def onlyChecking (i : String) (s : List TestCaseState) : Prop :=
  ∀ tc ∈ s, tc.status = .checking → tc.id = i

/-- Two concrete idle test cases with distinct ids. -/
def tcA : TestCaseState :=
  { id := "a", description := "d1", stdin := none, expectedOutput := none,
    status := .idle, feedback := none, result := none }

/-- Second concrete idle test case. -/
def tcB : TestCaseState :=
  { id := "b", description := "d2", stdin := none, expectedOutput := none,
    status := .idle, feedback := none, result := none }

theorem applyEventElem_id (tc : TestCaseState) (e : Event) :
    (applyEventElem tc e).id = tc.id := by
  cases e <;> simp only [applyEventElem] <;> split <;> rfl

theorem applyEventElem_description (tc : TestCaseState) (e : Event) :
    (applyEventElem tc e).description = tc.description := by
  cases e <;> simp only [applyEventElem] <;> split <;> rfl

theorem applyEventElem_stdin (tc : TestCaseState) (e : Event) :
    (applyEventElem tc e).stdin = tc.stdin := by
  cases e <;> simp only [applyEventElem] <;> split <;> rfl

theorem applyEventElem_expectedOutput (tc : TestCaseState) (e : Event) :
    (applyEventElem tc e).expectedOutput = tc.expectedOutput := by
  cases e <;> simp only [applyEventElem] <;> split <;> rfl

theorem applyTrace_id (tr : List Event) (tc : TestCaseState) :
    (tr.foldl applyEventElem tc).id = tc.id := by
  induction tr generalizing tc with
  | nil => rfl
  | cons e tr ih => rw [List.foldl_cons, ih, applyEventElem_id]

theorem applyTrace_description (tr : List Event) (tc : TestCaseState) :
    (tr.foldl applyEventElem tc).description = tc.description := by
  induction tr generalizing tc with
  | nil => rfl
  | cons e tr ih => rw [List.foldl_cons, ih, applyEventElem_description]

theorem applyTrace_stdin (tr : List Event) (tc : TestCaseState) :
    (tr.foldl applyEventElem tc).stdin = tc.stdin := by
  induction tr generalizing tc with
  | nil => rfl
  | cons e tr ih => rw [List.foldl_cons, ih, applyEventElem_stdin]

theorem applyTrace_expectedOutput (tr : List Event) (tc : TestCaseState) :
    (tr.foldl applyEventElem tc).expectedOutput = tc.expectedOutput := by
  induction tr generalizing tc with
  | nil => rfl
  | cons e tr ih => rw [List.foldl_cons, ih, applyEventElem_expectedOutput]

theorem applyEvents_eq_map (tr : List Event) (s : List TestCaseState) :
    applyEvents s tr = s.map (fun tc => tr.foldl applyEventElem tc) := by
  induction tr generalizing s with
  | nil => simp [applyEvents]
  | cons e tr ih =>
    show applyEvents (applyStep s e) tr = _
    rw [ih, applyStep, List.map_map]
    rfl

theorem lastStatusAux_collapse (i : String) (tr : List Event) :
    ∀ a, lastStatusAux i a tr = (lastStatus i tr).elim a some := by
  induction tr with
  | nil => intro a; rfl
  | cons e tr ih =>
    intro a
    cases e with
    | gateway c =>
      show lastStatusAux i a tr = (lastStatusAux i none tr).elim a some
      exact ih a
    | setResult j r =>
      show lastStatusAux i a tr = (lastStatusAux i none tr).elim a some
      exact ih a
    | setStatus j status feedback =>
      show lastStatusAux i (if j = i then some (status, feedback) else a) tr
          = (lastStatusAux i (if j = i then some (status, feedback) else none) tr).elim a some
      rw [ih, ih]
      cases hl : lastStatus i tr <;> by_cases h : j = i <;> simp [h, hl]

theorem lastResultAux_collapse (i : String) (tr : List Event) :
    ∀ a, lastResultAux i a tr = (lastResult i tr).elim a some := by
  induction tr with
  | nil => intro a; rfl
  | cons e tr ih =>
    intro a
    cases e with
    | gateway c =>
      show lastResultAux i a tr = (lastResultAux i none tr).elim a some
      exact ih a
    | setStatus j status feedback =>
      show lastResultAux i a tr = (lastResultAux i none tr).elim a some
      exact ih a
    | setResult j r =>
      show lastResultAux i (if j = i then some r else a) tr
          = (lastResultAux i (if j = i then some r else none) tr).elim a some
      rw [ih, ih]
      cases hl : lastResult i tr <;> by_cases h : j = i <;> simp [h, hl]

theorem applyTrace_status (tr : List Event) (tc : TestCaseState) :
    (tr.foldl applyEventElem tc).status = (lastStatus tc.id tr).elim tc.status Prod.fst := by
  induction tr generalizing tc with
  | nil => rfl
  | cons e tr ih =>
    rw [List.foldl_cons, ih, applyEventElem_id]
    cases e with
    | gateway c => rfl
    | setResult j r =>
      show (lastStatus tc.id tr).elim (applyEventElem tc (.setResult j r)).status Prod.fst
          = (lastStatusAux tc.id none tr).elim tc.status Prod.fst
      have hst : (applyEventElem tc (.setResult j r)).status = tc.status := by
        simp only [applyEventElem]; split <;> rfl
      rw [hst]; rfl
    | setStatus j status feedback =>
      show (lastStatus tc.id tr).elim (applyEventElem tc (.setStatus j status feedback)).status Prod.fst
          = (lastStatusAux tc.id (if j = tc.id then some (status, feedback) else none) tr).elim
              tc.status Prod.fst
      rw [lastStatusAux_collapse]
      by_cases h : j = tc.id
      · cases hl : lastStatus tc.id tr <;> simp [applyEventElem, h, hl]
      · have h2 : ¬(tc.id = j) := fun heq => h heq.symm
        cases hl : lastStatus tc.id tr <;> simp [applyEventElem, h, h2, hl]

theorem applyTrace_feedback (tr : List Event) (tc : TestCaseState) :
    (tr.foldl applyEventElem tc).feedback = (lastStatus tc.id tr).elim tc.feedback Prod.snd := by
  induction tr generalizing tc with
  | nil => rfl
  | cons e tr ih =>
    rw [List.foldl_cons, ih, applyEventElem_id]
    cases e with
    | gateway c => rfl
    | setResult j r =>
      show (lastStatus tc.id tr).elim (applyEventElem tc (.setResult j r)).feedback Prod.snd
          = (lastStatusAux tc.id none tr).elim tc.feedback Prod.snd
      have hfb : (applyEventElem tc (.setResult j r)).feedback = tc.feedback := by
        simp only [applyEventElem]; split <;> rfl
      rw [hfb]; rfl
    | setStatus j status feedback =>
      show (lastStatus tc.id tr).elim (applyEventElem tc (.setStatus j status feedback)).feedback Prod.snd
          = (lastStatusAux tc.id (if j = tc.id then some (status, feedback) else none) tr).elim
              tc.feedback Prod.snd
      rw [lastStatusAux_collapse]
      by_cases h : j = tc.id
      · cases hl : lastStatus tc.id tr <;> simp [applyEventElem, h, hl]
      · have h2 : ¬(tc.id = j) := fun heq => h heq.symm
        cases hl : lastStatus tc.id tr <;> simp [applyEventElem, h, h2, hl]

theorem applyTrace_result (tr : List Event) (tc : TestCaseState) :
    (tr.foldl applyEventElem tc).result = (lastResult tc.id tr).elim tc.result some := by
  induction tr generalizing tc with
  | nil => rfl
  | cons e tr ih =>
    rw [List.foldl_cons, ih, applyEventElem_id]
    cases e with
    | gateway c => rfl
    | setStatus j status feedback =>
      show (lastResult tc.id tr).elim (applyEventElem tc (.setStatus j status feedback)).result some
          = (lastResultAux tc.id none tr).elim tc.result some
      have hr : (applyEventElem tc (.setStatus j status feedback)).result = tc.result := by
        simp only [applyEventElem]; split <;> rfl
      rw [hr]; rfl
    | setResult j r =>
      show (lastResult tc.id tr).elim (applyEventElem tc (.setResult j r)).result some
          = (lastResultAux tc.id (if j = tc.id then some r else none) tr).elim tc.result some
      rw [lastResultAux_collapse]
      by_cases h : j = tc.id
      · cases hl : lastResult tc.id tr <;> simp [applyEventElem, h, hl]
      · have h2 : ¬(tc.id = j) := fun heq => h heq.symm
        cases hl : lastResult tc.id tr <;> simp [applyEventElem, h, h2, hl]

theorem applyTrace_twice (tr : List Event) (tc : TestCaseState) :
    tr.foldl applyEventElem (tr.foldl applyEventElem tc) = tr.foldl applyEventElem tc := by
  apply TestCaseState.ext
  · rw [applyTrace_id, applyTrace_id]
  · rw [applyTrace_description, applyTrace_description]
  · rw [applyTrace_stdin, applyTrace_stdin]
  · rw [applyTrace_expectedOutput, applyTrace_expectedOutput]
  · rw [applyTrace_status, applyTrace_status, applyTrace_id]
    cases hl : lastStatus tc.id tr <;> simp [hl]
  · rw [applyTrace_feedback, applyTrace_feedback, applyTrace_id]
    cases hl : lastStatus tc.id tr <;> simp [hl]
  · rw [applyTrace_result, applyTrace_result, applyTrace_id]
    cases hl : lastResult tc.id tr <;> simp [hl]

theorem applyEvents_twice (tr : List Event) (s : List TestCaseState) :
    applyEvents (applyEvents s tr) tr = applyEvents s tr := by
  rw [applyEvents_eq_map, applyEvents_eq_map, List.map_map]
  exact List.map_congr_left (fun tc _ => applyTrace_twice tr tc)

theorem lastStatusAux_append (i : String) (t1 t2 : List Event) :
    ∀ a, lastStatusAux i a (t1 ++ t2) = lastStatusAux i (lastStatusAux i a t1) t2 := by
  induction t1 with
  | nil => intro a; rfl
  | cons e t1 ih =>
    intro a
    cases e with
    | gateway c => exact ih a
    | setStatus j status feedback => exact ih _
    | setResult j r => exact ih a

theorem lastStatusAux_const_fail (i : String) (fb : Option TestFeedback)
    (l : List TestCaseState) :
    ∀ a, lastStatusAux i a (l.map (fun tc => .setStatus tc.id .fail fb))
      = if l.any (fun tc => tc.id == i) then some (.fail, fb) else a := by
  induction l with
  | nil => intro a; simp [lastStatusAux]
  | cons tc l ih =>
    intro a
    show lastStatusAux i (if tc.id = i then some (.fail, fb) else a)
        (l.map (fun tc => .setStatus tc.id .fail fb)) = _
    rw [ih]
    by_cases h : tc.id = i <;>
      cases hany : l.any (fun tc => tc.id == i) <;> simp [h, hany, List.any_cons]

theorem run_marker_not_on_compile_source (code : String) :
    isRunModeSource ("//-compile\n" ++ code) = false := by
  show List.isPrefixOf _ ("//-compile\n".data ++ code.data) = false
  have h1 : "//-run\n".data = '/' :: '/' :: '-' :: 'r' :: "un\n".data := rfl
  have h2 : "//-compile\n".data = '/' :: '/' :: '-' :: 'c' :: "ompile\n".data := rfl
  rw [h1, h2]
  simp [List.isPrefixOf]

theorem applyEvents_immutProj (tr : List Event) (s : List TestCaseState) :
    (applyEvents s tr).map immutProj = s.map immutProj := by
  rw [applyEvents_eq_map, List.map_map]
  apply List.map_congr_left
  intro tc _
  simp [immutProj, Function.comp, applyTrace_id, applyTrace_description,
    applyTrace_stdin, applyTrace_expectedOutput]

theorem checkCodeV2Run_congr (engine : Engine) (lang : LanguageKey)
    (prob : Option ProblemState) (prepare : PrepareFn) (code : String) :
    ∀ (s s' : List TestCaseState), s.map immutProj = s'.map immutProj →
      checkCodeV2Run engine lang prob prepare code s
        = checkCodeV2Run engine lang prob prepare code s' := by
  intro s
  induction s with
  | nil =>
    intro s' h
    cases s' with
    | nil => rfl
    | cons tc' rest' => simp at h
  | cons tc rest ih =>
    intro s' h
    cases s' with
    | nil => simp at h
    | cons tc' rest' =>
      simp only [List.map_cons, List.cons.injEq] at h
      obtain ⟨hhead, htail⟩ := h
      simp only [immutProj, Prod.mk.injEq] at hhead
      obtain ⟨hid, hdesc, hstdin, heo⟩ := hhead
      show checkCodeV2Aux (mkCase engine lang prob prepare code) (tc :: rest)
          = checkCodeV2Aux (mkCase engine lang prob prepare code) (tc' :: rest')
      have hcase : mkCase engine lang prob prepare code tc
          = mkCase engine lang prob prepare code tc' := by
        simp [mkCase, hdesc, hstdin]
      have hrest : checkCodeV2Aux (mkCase engine lang prob prepare code) rest
          = checkCodeV2Aux (mkCase engine lang prob prepare code) rest' := ih rest' htail
      simp only [checkCodeV2Aux, hcase, hid, heo, hrest]

theorem idsMap_of_immutProj {s s' : List TestCaseState}
    (h : s.map immutProj = s'.map immutProj) :
    s.map (fun tc => tc.id) = s'.map (fun tc => tc.id) := by
  have := congrArg (List.map Prod.fst) h
  simpa [List.map_map, immutProj, Function.comp] using this

theorem checkCodeV2_congr (engine : Engine) (lang : LanguageKey)
    (prob : Option ProblemState) (prepare : PrepareFn) (code : String)
    (s s' : List TestCaseState) (h : s.map immutProj = s'.map immutProj) :
    checkCodeV2 engine lang prob prepare code s
      = checkCodeV2 engine lang prob prepare code s' := by
  have hrun := checkCodeV2Run_congr engine lang prob prepare code s s' h
  have hids := idsMap_of_immutProj h
  have hfail : s.map (fun tc => Event.setStatus tc.id .fail (some unexpectedErrorFeedback))
      = s'.map (fun tc => Event.setStatus tc.id .fail (some unexpectedErrorFeedback)) := by
    have h1 : s.map (fun tc => Event.setStatus tc.id .fail (some unexpectedErrorFeedback))
        = (s.map (fun tc => tc.id)).map
            (fun i => Event.setStatus i .fail (some unexpectedErrorFeedback)) := by
      rw [List.map_map]; rfl
    have h2 : s'.map (fun tc => Event.setStatus tc.id .fail (some unexpectedErrorFeedback))
        = (s'.map (fun tc => tc.id)).map
            (fun i => Event.setStatus i .fail (some unexpectedErrorFeedback)) := by
      rw [List.map_map]; rfl
    rw [h1, h2, hids]
  simp only [checkCodeV2, hrun, hfail]

/-- C8: running the same submission twice with identical code, identical
test-case list and identical engine behavior yields identical verdict
sequences: the second run of `checkCode` emits the same event trace as the
first, and re-applying that trace leaves every test case with the same
status and feedback (idempotence of `checkCode` on test-case state). -/
theorem c8_checkCode_idempotent (engine : Engine) (lang : LanguageKey)
    (prob : Option ProblemState) (prepare : PrepareFn) (code : String)
    (testCases : List TestCaseState) :
    checkCodeV2 engine lang prob prepare code
        (applyEvents testCases (checkCodeV2 engine lang prob prepare code testCases))
      = checkCodeV2 engine lang prob prepare code testCases
    ∧ applyEvents
        (applyEvents testCases (checkCodeV2 engine lang prob prepare code testCases))
        (checkCodeV2 engine lang prob prepare code testCases)
      = applyEvents testCases (checkCodeV2 engine lang prob prepare code testCases) := by
  constructor
  · exact checkCodeV2_congr engine lang prob prepare code _ _
      (applyEvents_immutProj (checkCodeV2 engine lang prob prepare code testCases) testCases)
  · exact applyEvents_twice (checkCodeV2 engine lang prob prepare code testCases) testCases

/-- C6: for every completed result with exit code 0, a falsy (absent or
empty) `expectedOutput` classifies as pass; a present non-empty
`expectedOutput` classifies as pass exactly when the trimmed stdout equals
the trimmed expectation (case-sensitive), and on inequality the fail
feedback carries `expected` = the raw expectation and `received` = the raw
stdout. -/
theorem c6_classifier_exit_zero (expectedOutput : Option String)
    (ec : Int) (stdout stderr tty : String) (hec : ec = 0) :
    (jsFalsy expectedOutput = true →
      processResult expectedOutput (.complete ec stdout stderr tty) = (.pass, none))
    ∧ (∀ expected, expectedOutput = some expected → expected ≠ "" →
        ((processResult expectedOutput (.complete ec stdout stderr tty)).1 = .pass
          ↔ jsTrim stdout = jsTrim expected)
        ∧ (jsTrim stdout ≠ jsTrim expected →
            processResult expectedOutput (.complete ec stdout stderr tty)
              = (.fail, some { message := "Your output didn\x27t match what we expected.",
                               expected := some expected, received := some stdout }))) := by
  subst hec
  constructor
  · intro hfalsy
    cases expectedOutput with
    | none => simp [processResult]
    | some expected =>
      have he : expected = "" := by simpa [jsFalsy] using hfalsy
      simp [processResult, he]
  · intro expected hsome hne
    subst hsome
    constructor
    · by_cases ht : jsTrim stdout = jsTrim expected <;> simp [processResult, hne, ht]
    · intro ht
      simp [processResult, hne, ht]

/-- C6 witness: the classifier at concrete inputs, every hypothesis
discharged. -/
theorem c6_classifier_exit_zero_witness :
    (0 : Int) = 0
    ∧ ((jsFalsy (some "6") = true →
          processResult (some "6") (.complete 0 "5" "" "t") = (.pass, none))
        ∧ (∀ expected, some "6" = some expected → expected ≠ "" →
            ((processResult (some "6") (.complete 0 "5" "" "t")).1 = .pass
              ↔ jsTrim "5" = jsTrim expected)
            ∧ (jsTrim "5" ≠ jsTrim expected →
                processResult (some "6") (.complete 0 "5" "" "t")
                  = (.fail, some { message := "Your output didn\x27t match what we expected.",
                                   expected := some expected, received := some "5" })))) :=
  ⟨rfl, c6_classifier_exit_zero (some "6") 0 "5" "" "t" rfl⟩

/-- C7: every completed result with non-zero exit code classifies as fail
with the combined terminal transcript as the error detail, regardless of
the expectation. -/
theorem c7_classifier_nonzero_exit (expectedOutput : Option String)
    (ec : Int) (stdout stderr tty : String) (hec : ec ≠ 0) :
    processResult expectedOutput (.complete ec stdout stderr tty)
      = (.fail, some { message := "Your program had an error.", error := some tty }) := by
  simp [processResult, hec]

/-- C7 witness: the classifier at a concrete non-zero exit. -/
theorem c7_classifier_nonzero_exit_witness :
    (2 : Int) ≠ 0
    ∧ processResult (some "5") (.complete 2 "x" "boom" "transcript")
        = (.fail, some { message := "Your program had an error.", error := some "transcript" }) :=
  ⟨by decide, c7_classifier_nonzero_exit (some "5") 2 "x" "boom" "transcript" (by decide)⟩

/-- C2: for a compiled-language execution whose compile phase succeeds, the
two-argument `getHeadlessExecutor` of `lib/language-support` (the one the
live `checkCode` invokes with the sequencer-computed stdin) issues its
run-marker call with NO stdin argument — the real stdin "5\n" passed to it
is discarded — whereas the three-argument run-element variant carries that
stdin on the run call, as the claim states. -/
theorem c2_run_call_drops_stdin :
    (executorV1 cleanEngine .clangpp "int main()" "5\n").2
        = [⟨"clangpp", "//-compile\nint main()", none⟩,
           ⟨"clangpp", "//-run\nint main()", none⟩]
    ∧ (executorV2 cleanEngine .clangpp "int main()" "5\n").2
        = [⟨"clangpp", "//-compile\nint main()", some ""⟩,
           ⟨"clangpp", "//-run\nint main()", some "5\n"⟩] :=
  ⟨rfl, rfl⟩

/-- C4 counterexample: on an empty test-case list the aggregation of
`runTests` (JavaScript `every`) is vacuously true, so the submission is
marked solved, contradicting the claim that an empty list aggregates to
not-solved. -/
theorem c4_empty_aggregates_solved : aggregateSolved [] = true := rfl

/-- C4 (amended): the aggregation yields solved = true exactly when every
test case's final status is pass; on the empty list this is vacuously
true (solved), not not-solved. -/
theorem c4_aggregate_iff (testCases : List TestCaseState) :
    aggregateSolved testCases = true ↔ ∀ tc ∈ testCases, tc.status = .pass := by
  simp [aggregateSolved, List.all_eq_true]

/-- C1: when the compile-phase call of a compiled-language submission
completes with a non-zero exit code, `checkCppCode` (first variant) gives
every test case the identical fail feedback (message "Compilation failed."
with the `stderr || tty` detail), its trace contains zero run-marker
gateway calls, and the two-argument `getHeadlessExecutor` short-circuits
the same way: it returns the compile result as-is and issues no run-marker
call. -/
theorem c1_compile_short_circuit (engine : Engine) (code : String)
    (testCases : List TestCaseState) (ec : Int) (out err tty : String)
    (hc : engine "clangpp" ("//-compile\n" ++ code) (some "")
        = .ok (.complete ec out err tty))
    (hec : ec ≠ 0) :
    (∀ tc ∈ applyEvents testCases (checkCppCodeV1 engine code testCases).1,
        tc.status = .fail
        ∧ tc.feedback = some { message := "Compilation failed.",
                               error := some (if err = "" then tty else err) })
    ∧ runModeCallCount (checkCppCodeV1 engine code testCases).1 = 0
    ∧ (∀ code' stdin,
        engine "clangpp" ("//-compile\n" ++ code') none = .ok (.complete ec out err tty) →
          (executorV1 engine .clangpp code' stdin).1 = .ok (.complete ec out err tty)
          ∧ runModeCallCount
              ((executorV1 engine .clangpp code' stdin).2.map Event.gateway) = 0) := by
  have hnz : isCompleteNonzero (.complete ec out err tty) = true := by
    simp [isCompleteNonzero, hec]
  have htrace : (checkCppCodeV1 engine code testCases).1
      = .gateway ⟨"clangpp", "//-compile\n" ++ code, some ""⟩ ::
          testCases.map (fun tc =>
            .setStatus tc.id .fail (some (compileFailFeedback (.complete ec out err tty)))) := by
    simp only [checkCppCodeV1, hc, hnz]
    simp
  refine ⟨?_, ?_, ?_⟩
  · intro tc htc
    rw [htrace, applyEvents_eq_map] at htc
    obtain ⟨tc0, htc0, rfl⟩ := List.mem_map.mp htc
    have hlast : lastStatus tc0.id
        (Event.gateway ⟨"clangpp", "//-compile\n" ++ code, some ""⟩ ::
          testCases.map (fun tc =>
            .setStatus tc.id .fail (some (compileFailFeedback (.complete ec out err tty)))))
        = some (.fail, some (compileFailFeedback (.complete ec out err tty))) := by
      show lastStatusAux tc0.id none
          (testCases.map (fun tc =>
            .setStatus tc.id .fail (some (compileFailFeedback (.complete ec out err tty)))))
        = _
      rw [lastStatusAux_const_fail]
      have hany : testCases.any (fun tc => tc.id == tc0.id) = true := by
        rw [List.any_eq_true]
        exact ⟨tc0, htc0, by simp⟩
      rw [hany]
      simp
    constructor
    · rw [applyTrace_status, hlast]; rfl
    · rw [applyTrace_feedback, hlast]
      simp [compileFailFeedback]
  · rw [htrace, runModeCallCount, List.countP_cons]
    have h0 : (testCases.map (fun tc =>
        Event.setStatus tc.id .fail (some (compileFailFeedback (.complete ec out err tty))))).countP
          (fun e => match e with | .gateway c => isRunModeSource c.source | _ => false) = 0 := by
      induction testCases with
      | nil => rfl
      | cons tc l ih => simp [List.countP_cons, ih]
    rw [h0]
    simp [run_marker_not_on_compile_source code]
  · intro code' stdin hc'
    have : executorV1 engine .clangpp code' stdin
        = (.ok (.complete ec out err tty),
           [⟨langStr .clangpp, "//-compile\n" ++ code', none⟩]) := by
      simp only [executorV1, supportedLanguages, langStr, hc', hnz]
      simp
    rw [this]
    refine ⟨rfl, ?_⟩
    simp [runModeCallCount, List.countP_cons, List.countP_nil,
      run_marker_not_on_compile_source code']

/-- C1 witness: the short-circuit theorem applied at a concrete failing
compile, hypotheses discharged. -/
theorem c1_compile_short_circuit_witness :
    (compileFailEngine "clangpp" ("//-compile\n" ++ "int main()") (some "")
        = .ok (.complete 2 "" "err" "ttyout"))
    ∧ ((2 : Int) ≠ 0)
    ∧ ((∀ tc ∈ applyEvents [tcW] (checkCppCodeV1 compileFailEngine "int main()" [tcW]).1,
          tc.status = .fail
          ∧ tc.feedback = some { message := "Compilation failed.",
                                 error := some (if "err" = "" then "ttyout" else "err") })
        ∧ runModeCallCount (checkCppCodeV1 compileFailEngine "int main()" [tcW]).1 = 0
        ∧ (∀ code' stdin,
            compileFailEngine "clangpp" ("//-compile\n" ++ code') none
                = .ok (.complete 2 "" "err" "ttyout") →
              (executorV1 compileFailEngine .clangpp code' stdin).1
                  = .ok (.complete 2 "" "err" "ttyout")
              ∧ runModeCallCount
                  ((executorV1 compileFailEngine .clangpp code' stdin).2.map Event.gateway)
                    = 0)) :=
  ⟨rfl, by decide,
    c1_compile_short_circuit compileFailEngine "int main()" [tcW] 2 "" "err" "ttyout"
      rfl (by decide)⟩

/-- C5 counterexample: with a throwing gateway, the first-variant
`checkCode` (try/finally, no catch) propagates the error to its caller
and leaves the in-flight test case stuck in `checking`, never marked
fail — the claim's catch-and-mark behaviour does not hold of it. -/
theorem c5_uncaught_in_first_variant :
    (checkCodeV1 throwEngine "print(1)" [tcW]).2 = some "boom"
    ∧ (applyEvents [tcW] (checkCodeV1 throwEngine "print(1)" [tcW]).1).map
        (fun tc => tc.status) = [.checking] :=
  ⟨rfl, by decide⟩

/-- C5 (amended): the live `checkCode` (the `getHeadlessExecutor`-based
variant) catches a thrown gateway error — it returns a trace instead of
re-throwing — and its catch block marks every test case of the submission
(the in-flight one included) fail with the generic unexpected-error
message. -/
theorem c5_catch_marks_all_fail (engine : Engine) (lang : LanguageKey)
    (prob : Option ProblemState) (prepare : PrepareFn) (code : String)
    (testCases : List TestCaseState)
    (hcaught : (checkCodeV2Run engine lang prob prepare code testCases).2 = true) :
    ∀ tc ∈ applyEvents testCases (checkCodeV2 engine lang prob prepare code testCases),
      tc.status = .fail ∧ tc.feedback = some unexpectedErrorFeedback := by
  have hsplit : checkCodeV2Run engine lang prob prepare code testCases
      = ((checkCodeV2Run engine lang prob prepare code testCases).1, true) := by
    rw [← hcaught]
  have htr : checkCodeV2 engine lang prob prepare code testCases
      = (checkCodeV2Run engine lang prob prepare code testCases).1
        ++ testCases.map (fun tc =>
            .setStatus tc.id .fail (some unexpectedErrorFeedback)) := by
    unfold checkCodeV2
    rw [hsplit]
    rfl
  intro tc htc
  rw [htr, applyEvents_eq_map] at htc
  obtain ⟨tc0, htc0, rfl⟩ := List.mem_map.mp htc
  have hlast : lastStatus tc0.id
      ((checkCodeV2Run engine lang prob prepare code testCases).1
        ++ testCases.map (fun tc =>
            .setStatus tc.id .fail (some unexpectedErrorFeedback)))
      = some (.fail, some unexpectedErrorFeedback) := by
    rw [lastStatus, lastStatusAux_append, lastStatusAux_const_fail]
    have hany : testCases.any (fun tc => tc.id == tc0.id) = true := by
      rw [List.any_eq_true]
      exact ⟨tc0, htc0, by simp⟩
    rw [hany]
    simp
  constructor
  · rw [applyTrace_status, hlast]; rfl
  · rw [applyTrace_feedback, hlast]; rfl

/-- C5 witness: the catch theorem at a concrete throwing engine. -/
theorem c5_catch_marks_all_fail_witness :
    (checkCodeV2Run throwEngine .python none prep0 "print(1)" [tcW]).2 = true
    ∧ (∀ tc ∈ applyEvents [tcW] (checkCodeV2 throwEngine .python none prep0 "print(1)" [tcW]),
        tc.status = .fail ∧ tc.feedback = some unexpectedErrorFeedback) :=
  ⟨rfl, c5_catch_marks_all_fail throwEngine .python none prep0 "print(1)" [tcW] rfl⟩

theorem jsFindIndex_spec {α : Type} (p : α → Bool) :
    ∀ (l : List α) (i : Nat), jsFindIndex p l = some i →
      ∃ a, l[i]? = some a ∧ p a = true := by
  intro l
  induction l with
  | nil => intro i h; simp [jsFindIndex] at h
  | cons x rest ih =>
    intro i h
    simp only [jsFindIndex] at h
    by_cases hp : p x
    · rw [if_pos hp] at h
      obtain rfl : (0 : Nat) = i := by simpa using h
      exact ⟨x, by simp, hp⟩
    · rw [if_neg hp] at h
      cases hr : jsFindIndex p rest with
      | none => rw [hr] at h; simp at h
      | some j =>
        rw [hr] at h
        have hji : j + 1 = i := by simpa using h
        subst hji
        obtain ⟨a, ha, hpa⟩ := ih j hr
        exact ⟨a, by rw [List.getElem?_cons_succ]; exact ha, hpa⟩

/-- C9: the progress update is an upsert keyed by problem id that merges
per-language sub-records: every progress entry whose problem id differs
from the current problem keeps its exact value at its index, and in every
entry of the result (the updated one included) each language other than
the active one keeps its previous sub-record. -/
theorem c9_progress_frame (s : RunnoState) (now : String) (passed : Bool)
    (i : Nat) (p : UserProblemProgress)
    (hp : s.userProgress[i]? = some p) :
    (∀ prob, s.currentProblem = some prob → p.problemId ≠ prob.id →
        (updateProblemProgress now passed s).userProgress[i]? = some p)
    ∧ (∀ p', (updateProblemProgress now passed s).userProgress[i]? = some p' →
        ∀ l, l ≠ s.activeLanguage → p'.languages l = p.languages l) := by
  cases hprob : s.currentProblem with
  | none =>
    have hs : updateProblemProgress now passed s = s := by
      simp [updateProblemProgress, hprob]
    constructor
    · intro prob h
      exact Option.noConfusion h
    · intro p' hp' l _
      rw [hs, hp] at hp'
      cases hp'
      rfl
  | some prob0 =>
    cases hfind : jsFindIndex (fun q => q.problemId == prob0.id) s.userProgress with
    | none =>
      have hlen : i < s.userProgress.length := (List.getElem?_eq_some.mp hp).1
      have hsame : (updateProblemProgress now passed s).userProgress[i]? = some p := by
        simp only [updateProblemProgress, hprob, hfind]
        rw [List.getElem?_append_left hlen, hp]
      constructor
      · intro _ _ _
        exact hsame
      · intro p' hp' l _
        rw [hsame] at hp'
        cases hp'
        rfl
    | some j =>
      obtain ⟨q, hq, hpq⟩ := jsFindIndex_spec _ _ _ hfind
      have hqid : q.problemId = prob0.id := by simpa using hpq
      have hs : (updateProblemProgress now passed s).userProgress
          = s.userProgress.set j
              { q with
                solved := q.solved || passed,
                lastAttempted := now,
                languages := fun l =>
                  if l = s.activeLanguage then some ⟨s.code, passed, now⟩
                  else q.languages l } := by
        simp only [updateProblemProgress, hprob, hfind, hq]
      by_cases hij : i = j
      · subst hij
        have hpq2 : p = q := by
          rw [hp] at hq
          cases hq
          rfl
        constructor
        · intro prob h hne
          have hpp : prob0 = prob := Option.some.inj h
          subst hpp
          exact absurd (hpq2.symm ▸ hqid) hne
        · intro p' hp' l hl
          have hlen : i < s.userProgress.length := (List.getElem?_eq_some.mp hp).1
          rw [hs, List.getElem?_set_self hlen] at hp'
          cases hp'
          simp [hl, hpq2]
      · have hsame : (updateProblemProgress now passed s).userProgress[i]? = some p := by
          rw [hs, List.getElem?_set_ne (fun h => hij h.symm), hp]
        constructor
        · intro _ _ _
          exact hsame
        · intro p' hp' l _
          rw [hsame] at hp'
          cases hp'
          rfl

/-- C10: on an existing progress record, the update sets `solved` to the
disjunction of the old flag and the new result — so a recorded solve is
never cleared by a later failing submission — while the active language's
sub-record is overwritten with the new code, result and timestamp. -/
theorem c10_solved_monotone (s : RunnoState) (now : String) (passed : Bool)
    (prob : ProblemState) (i : Nat) (p : UserProblemProgress)
    (hprob : s.currentProblem = some prob)
    (hfind : jsFindIndex (fun q => q.problemId == prob.id) s.userProgress = some i)
    (hp : s.userProgress[i]? = some p) :
    ∃ p', (updateProblemProgress now passed s).userProgress[i]? = some p'
      ∧ p'.solved = (p.solved || passed)
      ∧ (p.solved = true → p'.solved = true)
      ∧ p'.languages s.activeLanguage = some ⟨s.code, passed, now⟩ := by
  have hlen : i < s.userProgress.length := (List.getElem?_eq_some.mp hp).1
  have hs : (updateProblemProgress now passed s).userProgress
      = s.userProgress.set i
          { p with
            solved := p.solved || passed,
            lastAttempted := now,
            languages := fun l =>
              if l = s.activeLanguage then some ⟨s.code, passed, now⟩
              else p.languages l } := by
    simp only [updateProblemProgress, hprob, hfind, hp]
  refine ⟨{ p with
      solved := p.solved || passed,
      lastAttempted := now,
      languages := fun l =>
        if l = s.activeLanguage then some ⟨s.code, passed, now⟩
        else p.languages l }, ?_, rfl, ?_, ?_⟩
  · rw [hs]
    exact List.getElem?_set_self hlen
  · intro h
    simp [h]
  · simp

/-- C9 witness: the frame theorem at the concrete store. -/
theorem c9_progress_frame_witness :
    stateW.userProgress[0]? = some progW
    ∧ ((∀ prob, stateW.currentProblem = some prob → progW.problemId ≠ prob.id →
          (updateProblemProgress "t1" true stateW).userProgress[0]? = some progW)
        ∧ (∀ p', (updateProblemProgress "t1" true stateW).userProgress[0]? = some p' →
            ∀ l, l ≠ stateW.activeLanguage → p'.languages l = progW.languages l)) :=
  ⟨rfl, c9_progress_frame stateW "t1" true 0 progW rfl⟩

/-- C10 witness: the monotonicity theorem at the concrete store, with a
failing submission (`passed = false`) over an already-solved record. -/
theorem c10_solved_monotone_witness :
    stateW.currentProblem = some probW
    ∧ jsFindIndex (fun q => q.problemId == probW.id) stateW.userProgress = some 0
    ∧ stateW.userProgress[0]? = some progW
    ∧ (∃ p', (updateProblemProgress "t1" false stateW).userProgress[0]? = some p'
        ∧ p'.solved = (progW.solved || false)
        ∧ (progW.solved = true → p'.solved = true)
        ∧ p'.languages stateW.activeLanguage = some ⟨stateW.code, false, "t1"⟩) :=
  ⟨rfl, rfl, rfl, c10_solved_monotone stateW "t1" false probW 0 progW rfl rfl rfl⟩

theorem applyStep_gateway (s : List TestCaseState) (c : GatewayCall) :
    applyStep s (.gateway c) = s := by
  simp [applyStep, applyEventElem]

theorem applyEventElem_status_setResult (tc : TestCaseState) (i : String)
    (r : ExecutionResult) :
    (applyEventElem tc (.setResult i r)).status = tc.status := by
  simp only [applyEventElem]
  split <;> rfl

theorem applyEventElem_status_setStatus (tc : TestCaseState) (i : String)
    (st : TestStatus) (fb : Option TestFeedback) :
    (applyEventElem tc (.setStatus i st fb)).status = if tc.id = i then st else tc.status := by
  simp only [applyEventElem]
  split <;> simp [*]

theorem countChecking_setResult (i : String) (r : ExecutionResult) :
    ∀ s : List TestCaseState, countChecking (applyStep s (.setResult i r)) = countChecking s := by
  intro s
  induction s with
  | nil => rfl
  | cons tc s ih =>
    show countChecking (applyEventElem tc (.setResult i r) :: applyStep s (.setResult i r)) = _
    simp only [countChecking, List.countP_cons] at *
    rw [ih]
    rw [applyEventElem_status_setResult]

theorem countChecking_set_nonchecking_le (i : String) (st : TestStatus)
    (fb : Option TestFeedback) (hst : st ≠ .checking) :
    ∀ s : List TestCaseState,
      countChecking (applyStep s (.setStatus i st fb)) ≤ countChecking s := by
  intro s
  induction s with
  | nil => exact Nat.le_refl 0
  | cons tc s ih =>
    show countChecking (applyEventElem tc (.setStatus i st fb) :: applyStep s (.setStatus i st fb)) ≤ _
    simp only [countChecking, List.countP_cons] at *
    rw [applyEventElem_status_setStatus]
    by_cases h : tc.id = i
    · rw [if_pos h]
      have hbeq : (st == TestStatus.checking) = false := by
        cases st <;> simp_all
      rw [hbeq]
      simp only [Bool.false_eq_true, if_false]
      exact Nat.le_trans ih (Nat.le_add_right _ _)
    · rw [if_neg h]
      exact Nat.add_le_add_right ih _

theorem countChecking_set_checking_le (i : String) (fb : Option TestFeedback) :
    ∀ s : List TestCaseState,
      countChecking (applyStep s (.setStatus i .checking fb))
        ≤ countChecking s + s.countP (fun tc => tc.id == i) := by
  intro s
  induction s with
  | nil => exact Nat.le_refl 0
  | cons tc s ih =>
    show countChecking (applyEventElem tc (.setStatus i .checking fb)
        :: applyStep s (.setStatus i .checking fb)) ≤ _
    simp only [countChecking, List.countP_cons] at *
    rw [applyEventElem_status_setStatus]
    by_cases h : tc.id = i
    · rw [if_pos h]
      have h1 : (tc.id == i) = true := by simp [h]
      rw [h1]
      simp only [beq_self_eq_true, if_true]
      omega
    · rw [if_neg h]
      have h1 : (tc.id == i) = false := by simp [h]
      rw [h1]
      simp only [Bool.false_eq_true, if_false]
      omega

theorem countP_id_le_one_of_nodup (i : String) :
    ∀ s : List TestCaseState, (s.map (fun tc => tc.id)).Nodup →
      s.countP (fun tc => tc.id == i) ≤ 1 := by
  intro s
  induction s with
  | nil => intro _; exact Nat.zero_le 1
  | cons tc s ih =>
    intro hnd
    rw [List.map_cons, List.nodup_cons] at hnd
    obtain ⟨hnotin, hnd'⟩ := hnd
    rw [List.countP_cons]
    by_cases h : tc.id = i
    · have hzero : s.countP (fun tc => tc.id == i) = 0 := by
        rw [List.countP_eq_zero]
        intro a ha
        simp only [beq_iff_eq]
        intro hai
        exact hnotin (by rw [h, ← hai]; exact List.mem_map_of_mem _ ha)
      simp [hzero, h]
    · have : (tc.id == i) = false := by simp [h]
      simp [this]
      exact Nat.le_trans (ih hnd') (Nat.le_refl 1)

theorem onlyChecking_of_zero (i : String) (s : List TestCaseState)
    (h : countChecking s = 0) : onlyChecking i s := by
  intro tc htc hst
  have := List.countP_eq_zero.mp h tc htc
  simp [hst] at this

theorem onlyChecking_applyStep_gateway (i : String) (s : List TestCaseState)
    (c : GatewayCall) (h : onlyChecking i s) :
    onlyChecking i (applyStep s (.gateway c)) := by
  rw [applyStep_gateway]
  exact h

theorem onlyChecking_applyStep_setResult (i : String) (s : List TestCaseState)
    (j : String) (r : ExecutionResult) (h : onlyChecking i s) :
    onlyChecking i (applyStep s (.setResult j r)) := by
  intro tc htc hst
  obtain ⟨tc0, htc0, rfl⟩ := List.mem_map.mp htc
  rw [applyEventElem_status_setResult] at hst
  rw [applyEventElem_id]
  exact h tc0 htc0 hst

theorem onlyChecking_applyStep_set_checking (i : String) (s : List TestCaseState)
    (fb : Option TestFeedback) (h : onlyChecking i s) :
    onlyChecking i (applyStep s (.setStatus i .checking fb)) := by
  intro tc htc hst
  obtain ⟨tc0, htc0, rfl⟩ := List.mem_map.mp htc
  rw [applyEventElem_id]
  by_cases hid : tc0.id = i
  · exact hid
  · rw [applyEventElem_status_setStatus, if_neg hid] at hst
    exact h tc0 htc0 hst

theorem countChecking_clear (i : String) (st : TestStatus)
    (fb : Option TestFeedback) (hst : st ≠ .checking) :
    ∀ s : List TestCaseState, onlyChecking i s →
      countChecking (applyStep s (.setStatus i st fb)) = 0 := by
  intro s
  induction s with
  | nil => intro _; rfl
  | cons tc s ih =>
    intro ho
    have ho' : onlyChecking i s := fun a ha => ho a (List.mem_cons_of_mem _ ha)
    show countChecking (applyEventElem tc (.setStatus i st fb) :: applyStep s (.setStatus i st fb)) = 0
    simp only [countChecking, List.countP_cons]
    rw [applyEventElem_status_setStatus]
    have hihz := ih ho'
    simp only [countChecking] at hihz
    rw [hihz]
    by_cases h : tc.id = i
    · rw [if_pos h]
      have hbeq : (st == TestStatus.checking) = false := by cases st <;> simp_all
      simp [hbeq]
    · rw [if_neg h]
      have : tc.status ≠ .checking := fun hc => h (ho tc (List.mem_cons_self _ _) hc)
      have hbeq : (tc.status == TestStatus.checking) = false := by
        cases htc : tc.status <;> simp_all
      simp [hbeq]

theorem processResult_status_ne_checking (eo : Option String) (r : ExecutionResult) :
    (processResult eo r).1 ≠ .checking := by
  cases r with
  | crash e => simp [processResult]
  | terminated => simp [processResult]
  | complete ec out err tty =>
    by_cases hec : ec ≠ 0
    · simp [processResult, hec]
    · cases eo with
      | none => simp [processResult, hec]
      | some e =>
        by_cases he : e = "" <;> by_cases ht : jsTrim out = jsTrim e <;>
          simp [processResult, hec, he, ht]

theorem applyEvents_append (s : List TestCaseState) (t1 t2 : List Event) :
    applyEvents s (t1 ++ t2) = applyEvents (applyEvents s t1) t2 := by
  simp [applyEvents, List.foldl_append]

theorem applyStep_ids (s : List TestCaseState) (e : Event) :
    (applyStep s e).map (fun tc => tc.id) = s.map (fun tc => tc.id) := by
  rw [applyStep, List.map_map]
  exact List.map_congr_left (fun tc _ => applyEventElem_id tc e)

theorem applyEvents_gateways (calls : List GatewayCall) :
    ∀ s : List TestCaseState, applyEvents s (calls.map .gateway) = s := by
  induction calls with
  | nil => intro s; rfl
  | cons c calls ih =>
    intro s
    show applyEvents (applyStep s (.gateway c)) (calls.map .gateway) = s
    rw [applyStep_gateway]
    exact ih s

theorem prefixBounded_gateways (calls : List GatewayCall) (s : List TestCaseState)
    (h : countChecking s ≤ 1) : prefixBounded s (calls.map .gateway) := by
  induction calls with
  | nil => trivial
  | cons c calls ih =>
    refine ⟨?_, ?_⟩
    · rw [applyStep_gateway]; exact h
    · rw [applyStep_gateway]; exact ih

theorem prefixBounded_fail_tail (fb : Option TestFeedback) :
    ∀ (l : List TestCaseState) (s : List TestCaseState), countChecking s ≤ 1 →
      prefixBounded s (l.map (fun tc => .setStatus tc.id .fail fb)) := by
  intro l
  induction l with
  | nil => intro s _; trivial
  | cons tc l ih =>
    intro s hs
    have hstep : countChecking (applyStep s (.setStatus tc.id .fail fb)) ≤ 1 :=
      Nat.le_trans
        (countChecking_set_nonchecking_le tc.id .fail fb (fun h => TestStatus.noConfusion h) s) hs
    exact ⟨hstep, ih _ hstep⟩

theorem prefixBounded_take (tr : List Event) :
    ∀ (s : List TestCaseState), countChecking s ≤ 1 → prefixBounded s tr →
      ∀ n, countChecking (applyEvents s (tr.take n)) ≤ 1 := by
  induction tr with
  | nil =>
    intro s h0 _ n
    simpa [applyEvents] using h0
  | cons e tr ih =>
    intro s h0 hpb n
    cases n with
    | zero => simpa [applyEvents] using h0
    | succ m =>
      rw [List.take_succ_cons]
      show countChecking (applyEvents (applyStep s e) (tr.take m)) ≤ 1
      exact ih (applyStep s e) hpb.1 hpb.2 m

theorem prefixBounded_append (t1 : List Event) :
    ∀ (t2 : List Event) (s : List TestCaseState),
      prefixBounded s (t1 ++ t2)
        ↔ prefixBounded s t1 ∧ prefixBounded (applyEvents s t1) t2 := by
  induction t1 with
  | nil =>
    intro t2 s
    show prefixBounded s t2 ↔ True ∧ prefixBounded s t2
    simp
  | cons e t1 ih =>
    intro t2 s
    show (countChecking (applyStep s e) ≤ 1 ∧ prefixBounded (applyStep s e) (t1 ++ t2)) ↔ _
    rw [ih]
    show _ ↔ (countChecking (applyStep s e) ≤ 1 ∧ prefixBounded (applyStep s e) t1)
        ∧ prefixBounded (applyEvents (applyStep s e) t1) t2
    rw [and_assoc]

theorem checkCodeV2Aux_bounded
    (exec : TestCaseState → Except String ExecutionResult × List GatewayCall) :
    ∀ (cases : List TestCaseState) (s : List TestCaseState),
      countChecking s = 0 → (s.map (fun tc => tc.id)).Nodup →
      prefixBounded s (checkCodeV2Aux exec cases).1
      ∧ countChecking (applyEvents s (checkCodeV2Aux exec cases).1) ≤ 1
      ∧ ((checkCodeV2Aux exec cases).2 = false →
          countChecking (applyEvents s (checkCodeV2Aux exec cases).1) = 0) := by
  intro cases
  induction cases with
  | nil =>
    intro s h0 _
    refine ⟨trivial, ?_, fun _ => ?_⟩
    · show countChecking s ≤ 1
      omega
    · show countChecking s = 0
      exact h0
  | cons tc rest ih =>
    intro s h0 hnd
    rcases hex : exec tc with ⟨r, calls⟩
    have hs1le : countChecking (applyStep s (.setStatus tc.id .checking none)) ≤ 1 := by
      have hle := countChecking_set_checking_le tc.id none s
      have hone := countP_id_le_one_of_nodup tc.id s hnd
      omega
    have hs1only : onlyChecking tc.id (applyStep s (.setStatus tc.id .checking none)) :=
      onlyChecking_applyStep_set_checking tc.id s none (onlyChecking_of_zero tc.id s h0)
    cases r with
    | error e =>
      have htrace : checkCodeV2Aux exec (tc :: rest)
          = (.setStatus tc.id .checking none :: calls.map .gateway, true) := by
        simp only [checkCodeV2Aux, hex]
      rw [htrace]
      refine ⟨⟨hs1le, prefixBounded_gateways calls _ hs1le⟩, ?_, ?_⟩
      · show countChecking
            (applyEvents (applyStep s (.setStatus tc.id .checking none)) (calls.map .gateway)) ≤ 1
        rw [applyEvents_gateways]
        exact hs1le
      · intro h
        exact Bool.noConfusion h
    | ok result =>
      rcases hpr : processResult tc.expectedOutput result with ⟨status, feedback⟩
      rcases haux : checkCodeV2Aux exec rest with ⟨evs, caught⟩
      have htrace : checkCodeV2Aux exec (tc :: rest)
          = ((.setStatus tc.id .checking none :: calls.map .gateway
              ++ [.setResult tc.id result, .setStatus tc.id status feedback]) ++ evs,
             caught) := by
        simp only [checkCodeV2Aux, hex, hpr, haux]
      -- the intermediate states
      have hs2 : applyEvents (applyStep s (.setStatus tc.id .checking none)) (calls.map .gateway)
          = applyStep s (.setStatus tc.id .checking none) := applyEvents_gateways calls _
      have hs3le : countChecking
          (applyStep (applyStep s (.setStatus tc.id .checking none)) (.setResult tc.id result)) ≤ 1 := by
        rw [countChecking_setResult]
        exact hs1le
      have hs3only : onlyChecking tc.id
          (applyStep (applyStep s (.setStatus tc.id .checking none)) (.setResult tc.id result)) :=
        onlyChecking_applyStep_setResult tc.id _ tc.id result hs1only
      have hstatusne : status ≠ .checking := by
        have := processResult_status_ne_checking tc.expectedOutput result
        rw [hpr] at this
        exact this
      have hs4zero : countChecking
          (applyStep (applyStep (applyStep s (.setStatus tc.id .checking none))
            (.setResult tc.id result)) (.setStatus tc.id status feedback)) = 0 :=
        countChecking_clear tc.id status feedback hstatusne _ hs3only
      have hs4nd : ((applyStep (applyStep (applyStep s (.setStatus tc.id .checking none))
            (.setResult tc.id result)) (.setStatus tc.id status feedback)).map
              (fun tc => tc.id)).Nodup := by
        rw [applyStep_ids, applyStep_ids, applyStep_ids]
        exact hnd
      obtain ⟨ihpb, ihle, ihzero⟩ := ih _ hs4zero hs4nd
      rw [haux] at ihpb ihle ihzero
      rw [htrace]
      have hblock : applyEvents s
          ((.setStatus tc.id .checking none :: calls.map .gateway
            ++ [.setResult tc.id result, .setStatus tc.id status feedback]))
          = applyStep (applyStep (applyStep s (.setStatus tc.id .checking none))
              (.setResult tc.id result)) (.setStatus tc.id status feedback) := by
        show applyEvents (applyStep s (.setStatus tc.id .checking none))
            (calls.map .gateway ++ [.setResult tc.id result, .setStatus tc.id status feedback]) = _
        rw [applyEvents_append, hs2]
        rfl
      have hfull : applyEvents s
          ((.setStatus tc.id .checking none :: calls.map .gateway
            ++ [.setResult tc.id result, .setStatus tc.id status feedback]) ++ evs)
          = applyEvents (applyStep (applyStep (applyStep s
              (.setStatus tc.id .checking none)) (.setResult tc.id result))
              (.setStatus tc.id status feedback)) evs := by
        rw [applyEvents_append, hblock]
      refine ⟨?_, ?_, ?_⟩
      · refine ⟨hs1le, ?_⟩
        show prefixBounded (applyStep s (.setStatus tc.id .checking none))
            ((calls.map .gateway ++ [.setResult tc.id result, .setStatus tc.id status feedback]) ++ evs)
        rw [prefixBounded_append, prefixBounded_append]
        refine ⟨⟨prefixBounded_gateways calls _ hs1le, ?_⟩, ?_⟩
        · rw [hs2]
          refine ⟨hs3le, ?_⟩
          show countChecking (applyStep _ (.setStatus tc.id status feedback)) ≤ 1 ∧ True
          refine ⟨?_, trivial⟩
          rw [hs4zero]
          exact Nat.zero_le 1
        · rw [applyEvents_append, hs2]
          show prefixBounded (applyEvents _ [.setResult tc.id result, .setStatus tc.id status feedback]) evs
          have heq : applyEvents (applyStep s (.setStatus tc.id .checking none))
              [.setResult tc.id result, .setStatus tc.id status feedback]
              = applyStep (applyStep (applyStep s (.setStatus tc.id .checking none))
                  (.setResult tc.id result)) (.setStatus tc.id status feedback) := rfl
          rw [heq]
          exact ihpb
      · rw [hfull]
        exact ihle
      · intro hc
        rw [hfull]
        exact ihzero hc

/-- C3 counterexample: `runTests` marks every test case `checking` before the
sequencer runs, so already after its first two observable events both test
cases of a two-case submission are simultaneously in `checking` state —
the claim that no two cases are ever simultaneously checking fails on the
submission flow. -/
theorem c3_two_checking_at_once :
    countChecking (applyEvents [tcA, tcB]
      ((runTestsTrace cleanEngine .python none prep0 "print(1)" [tcA, tcB]).take 2)) = 2 := by
  decide

/-- C3 (amended): within `checkCode` itself the sequencer is strictly
case-by-case — started from a store whose test cases have pairwise
distinct ids and none already `checking`, every prefix of `checkCode`'s
event trace leaves at most one test case in `checking` state (each case
settles before the next one starts). The submission flow violates the
claim only because `runTests` pre-marks all cases checking. -/
theorem c3_at_most_one_checking (engine : Engine) (lang : LanguageKey)
    (prob : Option ProblemState) (prepare : PrepareFn) (code : String)
    (testCases : List TestCaseState)
    (hnodup : (testCases.map (fun tc => tc.id)).Nodup)
    (hidle : ∀ tc ∈ testCases, tc.status ≠ .checking) :
    ∀ n, countChecking (applyEvents testCases
        ((checkCodeV2 engine lang prob prepare code testCases).take n)) ≤ 1 := by
  have h0 : countChecking testCases = 0 :=
    List.countP_eq_zero.mpr (fun tc htc => by simpa using hidle tc htc)
  obtain ⟨hpb, hle, _⟩ :=
    checkCodeV2Aux_bounded (mkCase engine lang prob prepare code) testCases testCases h0 hnodup
  cases hb : (checkCodeV2Run engine lang prob prepare code testCases).2 with
  | false =>
    have hsplit : checkCodeV2Run engine lang prob prepare code testCases
        = ((checkCodeV2Run engine lang prob prepare code testCases).1, false) := by
      rw [← hb]
    have htr : checkCodeV2 engine lang prob prepare code testCases
        = (checkCodeV2Run engine lang prob prepare code testCases).1 := by
      unfold checkCodeV2
      rw [hsplit]
      rfl
    rw [htr]
    exact prefixBounded_take _ testCases (by omega) hpb
  | true =>
    have hsplit : checkCodeV2Run engine lang prob prepare code testCases
        = ((checkCodeV2Run engine lang prob prepare code testCases).1, true) := by
      rw [← hb]
    have htr : checkCodeV2 engine lang prob prepare code testCases
        = (checkCodeV2Run engine lang prob prepare code testCases).1
          ++ testCases.map (fun tc => .setStatus tc.id .fail (some unexpectedErrorFeedback)) := by
      unfold checkCodeV2
      rw [hsplit]
      rfl
    rw [htr]
    apply prefixBounded_take _ testCases (by omega)
    rw [prefixBounded_append]
    exact ⟨hpb, prefixBounded_fail_tail _ testCases _ hle⟩

/-- C3 witness: the amended sequencing theorem at a concrete two-case
submission, hypotheses discharged. -/
theorem c3_at_most_one_checking_witness :
    ([tcA, tcB].map (fun tc => tc.id)).Nodup
    ∧ (∀ tc ∈ [tcA, tcB], tc.status ≠ .checking)
    ∧ (∀ n, countChecking (applyEvents [tcA, tcB]
        ((checkCodeV2 cleanEngine .python none prep0 "print(1)" [tcA, tcB]).take n)) ≤ 1) :=
  ⟨by decide, by decide,
    c3_at_most_one_checking cleanEngine .python none prep0 "print(1)" [tcA, tcB]
      (by decide) (by decide)⟩
